import Mathlib

/-!
Verification development for the trait-table core of `mypyli/picrust.py`.

The Python source is shallowly embedded: strings are Lean `String`s and the
character-level operations (`rstrip`, `split`, `replace`, `join`) are defined
by structural recursion on `String.data`.  Python `float` values are modelled
by a type parameter `F` together with a parse function `pf : String → Option F`
(the embedding of `float(raw)`, `none` meaning the `ValueError` branch) and a
rendering function `rf : F → String` (the embedding of `str(value)` for float
values).  Closed evaluations instantiate `F` with a small concrete model that
agrees with CPython on the inputs used.  A raised Python exception is modelled
by a `PyErr` value.
-/

namespace Picrust

/-! ## Character-level embeddings of the Python string operations used -/

/-- The Python `str` whitespace predicate (`Py_UNICODE_ISSPACE`, the set used
by both `str.isspace` and `str.rstrip`): the exact code points are
U+0009..U+000D, U+001C..U+001F, U+0020, U+0085, U+00A0, U+1680,
U+2000..U+200A, U+2028, U+2029, U+202F, U+205F and U+3000. -/
def pyIsSpace (c : Char) : Bool :=
  let n := c.toNat
  (9 ≤ n && n ≤ 13) || (28 ≤ n && n ≤ 31) || n == 32 || n == 133 || n == 160 ||
    n == 0x1680 || (0x2000 ≤ n && n ≤ 0x200A) || n == 0x2028 || n == 0x2029 ||
    n == 0x202F || n == 0x205F || n == 0x3000

/-- Embedding of Python `str.rstrip()`: remove trailing whitespace characters
(in Python's sense of whitespace). -/
def rstripChars (l : List Char) : List Char :=
  (l.reverse.dropWhile pyIsSpace).reverse

/-- Embedding of Python `s.split(sep)` for a one-character separator `c`:
split at every occurrence of `c`, keeping empty pieces, so that the empty
string yields `[[]]` (Python: `"".split(c) == [""]`). -/
def splitCh (c : Char) : List Char → List (List Char)
  | [] => [[]]
  | x :: xs =>
    if x = c then [] :: splitCh c xs
    else
      match splitCh c xs with
      | [] => [[x]]
      | y :: ys => (x :: y) :: ys

/-- Embedding of Python `sep.join(pieces)` for a one-character separator. -/
def interCh (c : Char) : List (List Char) → List Char
  | [] => []
  | [a] => a
  | a :: b :: rest => a ++ c :: interCh c (b :: rest)

/-- Embedding of Python `s.replace(pat, repl)` for a one-character pattern
`c` (the source only calls `replace` with the one-character pattern `"#"`):
every occurrence of `c` is replaced by `repl`. -/
def replaceCh (c : Char) (repl : List Char) : List Char → List Char
  | [] => []
  | x :: xs => if x = c then repl ++ replaceCh c repl xs else x :: replaceCh c repl xs

/-- String-level `rstrip`. -/
def pyRstrip (s : String) : String := String.mk (rstripChars s.data)

/-- String-level `s.split("\t")`. -/
def pySplitTab (s : String) : List String := (splitCh '\t' s.data).map String.mk

/-- Embedding of `s.split("\t", 1)` together with the two-name unpacking
`name, trait_values = ...`: `none` is the `ValueError` branch (no tab in `s`),
otherwise the part before the first tab and the part after it. -/
def pySplitTabOnce (s : String) : Option (String × String) :=
  match splitCh '\t' s.data with
  | [] => none
  | [_] => none
  | x :: rest => some (String.mk x, String.mk (interCh '\t' rest))

/-- String-level `s.startswith(p)`. -/
def pyStartsWith (s p : String) : Bool := p.data.isPrefixOf s.data

/-- String-level `s.replace("#", "")`. -/
def pyStripHash (s : String) : String := String.mk (replaceCh '#' [] s.data)

/-! ## Errors raised by the core (Python exception values) -/

/-- Exceptions the embedded core can raise.  `duplicateTrait` is the
`ValueError` from `TraitTableEntry.add_trait` (it records the entry name and
the offending trait name), `indexError` the `IndexError` from indexing
`self.traits` past its end, `nameError` the `NameError` from reading the
unpacked variables when the very first data line failed to split, and
`noSharedTraits` the `ValueError` from `TraitTableEntry.correlation`. -/
inductive PyErr
  | duplicateTrait (entryName traitName : String)
  | indexError
  | nameError
  | noSharedTraits
  deriving DecidableEq, Repr

/-! ## Data model: trait values and entries -/

/-- A stored trait value: `num f` when `float(raw)` succeeded (`f : F` models
the resulting float) and `text s` when it raised `ValueError` and the raw
string is kept verbatim. -/
inductive Value (F : Type) where
  | num (f : F)
  | text (s : String)
  deriving DecidableEq, Repr

/-- Embedding of `TraitTableEntry`: a name together with the `traits` dict,
modelled as an association list in insertion order (Python dicts preserve
insertion order, and `add_trait` never overwrites). -/
structure Entry (F : Type) where
  name : String
  traits : List (String × Value F)
  deriving DecidableEq, Repr

variable {F : Type}

/-- Dict lookup `e.traits[t]` (with `none` as the `KeyError` branch). -/
def assocLookup (t : String) : List (String × Value F) → Option (Value F)
  | [] => none
  | (k, v) :: rest => if k = t then some v else assocLookup t rest

/-- Embedding of the value-conversion step of `add_trait`: try
`value = float(value)`, keep the string on `ValueError`. -/
def pyFloatValue (pf : String → Option F) (v : String) : Value F :=
  match pf v with
  | some f => Value.num f
  | none => Value.text v

/-- Embedding of `TraitTableEntry.add_trait`, returning the exception raised
(if any) together with the post-call state of the entry.  The duplicate check
precedes any mutation, so on the error path the entry is returned unchanged. -/
def addTraitRun (pf : String → Option F) (e : Entry F) (trait v : String) :
    Option PyErr × Entry F :=
  if (e.traits.map Prod.fst).contains trait then
    (some (PyErr.duplicateTrait e.name trait), e)
  else
    (none, ⟨e.name, e.traits ++ [(trait, pyFloatValue pf v)]⟩)

/-! ## Correlation (shared-trait selection and the error policy) -/

/-- Embedding of the `pandas_dict` construction inside
`TraitTableEntry.correlation`: for each candidate trait name, the pair of
values is kept exactly when both entries have the trait. -/
def sharedPairs (e other : Entry F) (ts : List String) :
    List (String × Value F × Value F) :=
  ts.filterMap fun t =>
    match assocLookup t e.traits, assocLookup t other.traits with
    | some st, some ot => some (t, st, ot)
    | _, _ => none

/-- Embedding of `TraitTableEntry.correlation` up to (and including) the
empty-intersection check.  The final Spearman coefficient is computed by the
external `pandas` library and is outside the embedded core; the embedding
returns the aligned value pairs that are handed to it. -/
def correlationShared (e other : Entry F) (traits : Option (List String)) :
    Except PyErr (List (String × Value F × Value F)) :=
  let ts := traits.getD (e.traits.map Prod.fst)
  let pairs := sharedPairs e other ts
  if pairs.isEmpty then Except.error PyErr.noSharedTraits else Except.ok pairs

/-! ## Table: header parsing -/

/-- Embedding of the header read in `TraitTableManager.__init__`:
`headers = IN.readline().rstrip().split("\t")`. -/
def headersOf (line : String) : List String := pySplitTab (pyRstrip line)

/-- Embedding of `self.entry_header = headers[0].replace("#", "")`
(`headersOf` is never empty, so `headD` is exact). -/
def entryHeaderOf (line : String) : String := pyStripHash ((headersOf line).headD "")

/-- Embedding of `self.traits = headers[1:]`. -/
def traitsOf (line : String) : List String := (headersOf line).tail

/-! ## Table: iteration -/

/-- Result of one iteration pass: the entries yielded (in order), the raw
lines printed by the `except ValueError` diagnostic, and the exception that
aborted the generator, if any. -/
structure IterResult (F : Type) where
  entries : List (Entry F)
  diags : List String
  err : Option PyErr
  deriving DecidableEq, Repr

/-- Embedding of the per-row entry construction in `__iter__`:
`for index, val in enumerate(trait_values.split("\t")): tte.add_trait(self.traits[index], val)`.
Indexing `traits` past its end raises `IndexError`; a duplicate trait name in
the header raises the duplicate-trait `ValueError`; either aborts. -/
def buildEntryGo (pf : String → Option F) (traits : List String) :
    Entry F → Nat → List String → Except PyErr (Entry F)
  | e, _, [] => Except.ok e
  | e, i, v :: vs =>
    match traits[i]? with
    | none => Except.error PyErr.indexError
    | some t =>
      match addTraitRun pf e t v with
      | (some err, _) => Except.error err
      | (none, e2) => buildEntryGo pf traits e2 (i + 1) vs

/-- Entry construction for one row from its unpacked name and value string. -/
def buildEntry (pf : String → Option F) (traits : List String)
    (name : String) (vals : List String) : Except PyErr (Entry F) :=
  buildEntryGo pf traits ⟨name, []⟩ 0 vals

/-- Embedding of the body of `TraitTableManager.__iter__` over the data lines
(the header line has already been consumed).  The state argument holds the
current values of the unpacked variables `name, trait_values`; when the
`split("\t", 1)` fails the source prints the line and falls through WITHOUT a
`continue`, so the stale previous values are reused to build (and yield) an
entry; if no previous values exist the variable read raises `NameError`. -/
def iterLinesGo (pf : String → Option F) (traits : List String) :
    List String → Option (String × String) → IterResult F
  | [], _ => ⟨[], [], none⟩
  | line :: rest, st =>
    if line.data.isEmpty then iterLinesGo pf traits rest st
    else
      let parts := pySplitTabOnce (pyRstrip line)
      let diag : List String := if parts.isNone then [line] else []
      match parts.orElse fun _ => st with
      | none => ⟨[], diag, some PyErr.nameError⟩
      | some (name, tv) =>
        match buildEntry pf traits name (pySplitTab tv) with
        | Except.error err => ⟨[], diag, some err⟩
        | Except.ok tte =>
          let r := iterLinesGo pf traits rest (parts.orElse fun _ => st)
          ⟨tte :: r.entries, diag ++ r.diags, r.err⟩

/-- One full iteration pass of a table given as its list of raw lines: the
header line is skipped, then the data lines are processed. -/
def tableIter (pf : String → Option F) (lines : List String) : IterResult F :=
  iterLinesGo pf (traitsOf (lines.headD "")) lines.tail none

/-- Re-parsing a single produced row against a given header trait list
(used for the round-trip property). -/
def reParseRow (pf : String → Option F) (traits : List String) (row : String) :
    IterResult F :=
  iterLinesGo pf traits [row] none

/-! ## Natural-sort ordering of trait names -/

/-- An element of the sort key produced by `nat_sort`: the result of
`convert(char)` for a single character, an `Int`-like number for a digit and
the character itself otherwise. -/
inductive SortKeyElem
  | int (n : Nat)
  | ch (c : Char)
  deriving DecidableEq, Repr

/-- Embedding of `convert(char)` for one character: `int(char)` succeeds
exactly on digit characters. -/
def convertChar (c : Char) : SortKeyElem :=
  if c.isDigit then SortKeyElem.int (c.toNat - 48) else SortKeyElem.ch c

/-- Embedding of `nat_sort(entry)`: the whole entry is REPLACED by the fixed
string `"~~~" + "metadata"` when `metadata_last` holds and the name starts
with `"metadata"`; then every single character is converted. -/
def natSortKeyOf (metadataLast : Bool) (entry : String) : List SortKeyElem :=
  let e := if metadataLast && pyStartsWith entry "metadata" then "~~~metadata" else entry
  e.data.map convertChar

/-- Comparison of two key elements, `none` modelling the `TypeError` Python 3
raises when ordering an `int` against a `str`. -/
def elemCmp : SortKeyElem → SortKeyElem → Option Ordering
  | SortKeyElem.int a, SortKeyElem.int b => some (compare a b)
  | SortKeyElem.ch a, SortKeyElem.ch b => some (compare a b)
  | _, _ => none

/-- Python list comparison of two sort keys: lexicographic, first difference
decides, a strict prefix sorts first. -/
def keyCmp : List SortKeyElem → List SortKeyElem → Option Ordering
  | [], [] => some Ordering.eq
  | [], _ :: _ => some Ordering.lt
  | _ :: _, [] => some Ordering.gt
  | a :: as1, b :: bs =>
    match elemCmp a b with
    | none => none
    | some Ordering.eq => keyCmp as1 bs
    | some o => some o

/-- Stable insertion of `x` into an already sorted list (before the first
element whose key is not smaller), propagating a comparison `TypeError`. -/
def insertSorted (key : String → List SortKeyElem) (x : String) :
    List String → Option (List String)
  | [] => some [x]
  | y :: ys =>
    match keyCmp (key x) (key y) with
    | none => none
    | some Ordering.gt => (insertSorted key x ys).map (y :: ·)
    | some _ => some (x :: y :: ys)

/-- Embedding of `sorted(self.traits, key=nat_sort)`: a stable sort of the
trait names by their `nat_sort` keys (`sorted` is stable, and for a total
preorder every stable sort yields the same list).  `none` models a raised
`TypeError`; on the inputs considered here every comparison is defined. -/
def get_ordered_traits (traits : List String) (metadataLast : Bool) :
    Option (List String) :=
  traits.foldr (fun x acc => acc.bind (insertSorted (natSortKeyOf metadataLast) x)) (some [])

/-! ## Subset selection over the entry stream -/

/-- Embedding of the loop body of `TraitTableManager.get_subset`, with the
entry stream made explicit.  Mirrors the source exactly: when the counter has
reached `to_find`, in remove mode the entry is yielded and control FALLS
THROUGH to the membership test (the source has no `continue`), in keep mode
the generator returns. -/
def getSubsetGo (subsetNames : List String) (remove : Bool) (toFind : Nat) :
    List (Entry F) → Nat → List (Entry F)
  | [], _ => []
  | e :: rest, found =>
    let cont : List (Entry F) :=
      if subsetNames.contains e.name then
        if remove then getSubsetGo subsetNames remove toFind rest found
        else e :: getSubsetGo subsetNames remove toFind rest (found + 1)
      else
        if remove then e :: getSubsetGo subsetNames remove toFind rest (found + 1)
        else getSubsetGo subsetNames remove toFind rest found
    if found = toFind then (if remove then e :: cont else []) else cont

/-- Embedding of `TraitTableManager.get_subset` over an explicit entry
stream (`for entry in self`). -/
def get_subset (entries : List (Entry F)) (subsetNames : List String)
    (remove : Bool) : List (Entry F) :=
  getSubsetGo subsetNames remove subsetNames.length entries 0

/-! ## Row writing -/

/-- Rendering of a stored value back to text, the embedding of `str(value)`:
for floats it is the float-to-string conversion `rf`, for text it is the
string itself. -/
def renderValue (rf : F → String) : Value F → String
  | Value.num f => rf f
  | Value.text s => s

/-- The field written for one requested trait: the rendered stored value, or
the sentinel `"NA"` when the entry lacks the trait (`KeyError` branch). -/
def fieldFor (rf : F → String) (e : Entry F) (t : String) : String :=
  match assocLookup t e.traits with
  | some v => renderValue rf v
  | none => "NA"

/-- Embedding of `TraitTableManager.write_entry`: the text written to the
file handle, `"\t".join(to_write) + "\n"`. -/
def write_entry (rf : F → String) (e : Entry F) (traits : List String) : String :=
  String.mk
    (interCh '\t' (e.name.data :: traits.map fun t => (fieldFor rf e t).data) ++ ['\n'])

/-! ## A concrete float model for closed evaluations

CPython floats are modelled, for the concrete inputs appearing in the closed
theorems below, by integers: the parser accepts an optional minus sign, a
nonempty digit run, optionally followed by the exact suffix `".0"`, and the
renderer mirrors `str` on integral floats (`str(1.0) == "1.0"`).  On every
string appearing in a closed theorem of this file this model agrees with
CPython `float` / `str`. -/

/-- Digits-only string to a number (`none` when empty or with a non-digit). -/
def digitsToNat (l : List Char) : Option Nat :=
  if l.isEmpty then none
  else
    l.foldl
      (fun acc c => acc.bind fun n => if c.isDigit then some (n * 10 + (c.toNat - 48)) else none)
      (some 0)

/-- Drop an exact trailing `".0"` if present. -/
def stripDotZero (l : List Char) : List Char :=
  if l.length ≥ 2 ∧ l.drop (l.length - 2) = ['.', '0'] then l.take (l.length - 2) else l

/-- Concrete model of `float(s)` (integral floats only). -/
def parseIntFloat (s : String) : Option Int :=
  match s.data with
  | '-' :: rest => (digitsToNat (stripDotZero rest)).map fun n => -(n : Int)
  | l => (digitsToNat (stripDotZero l)).map fun n => (n : Int)

/-- Concrete model of `str(f)` for an integral float. -/
def renderIntFloat (n : Int) : String := toString n ++ ".0"

/-- Written from the SPEC's words (for comparison with the code's
`entryHeaderOf`): the first header field "with a single leading comment
marker character (if present) stripped". -/
def specStripLeadingHash (s : String) : String :=
  match s.data with
  | '#' :: rest => String.mk rest
  | _ => s

/-! ## Well-formedness predicates for the round-trip property -/

/-- A string that survives being written as a non-final row field: it
contains no tab (which would shift the split), no newline (which would end
the line early) and no carriage return (which Python's universal-newline
translation would rewrite when the written file is read back). -/
def goodName (s : String) : Bool :=
  s.data.all fun c => c != '\t' && c != '\n' && c != '\r'

/-- A string that survives being written as any row field, the final one
included: additionally nonempty and not ending in a character of Python's
whitespace set, so that the `rstrip` applied at re-parse time cannot eat
into it. -/
def goodField (s : String) : Bool :=
  !s.data.isEmpty && goodName s && !pyIsSpace (s.data.getLast?.getD ' ')

/-- A stored value whose rendering parses back to it: for a float, parsing
the rendered text returns the same float (CPython: `float(str(f)) == f`);
for text, the raw string does not parse as a float (which is how `add_trait`
came to store it as text in the first place). -/
def valWritable (pf : String → Option F) (rf : F → String) : Value F → Prop
  | Value.num f => pf (rf f) = some f
  | Value.text s => pf s = none

/-- Expected result of reading one written field back: the stored value for
a trait present at write time, and the sentinel `text "NA"` otherwise. -/
def readBack (e : Entry F) (t : String) : Value F :=
  match assocLookup t e.traits with
  | some v => v
  | none => Value.text "NA"

/-! ## Helper lemmas -/

theorem contains_iff_mem (l : List String) (a : String) :
    l.contains a = true ↔ a ∈ l := by
  simp [List.contains]

theorem assocLookup_mem {l : List (String × Value F)} {t : String} {v : Value F}
    (h : assocLookup t l = some v) : (t, v) ∈ l := by
  induction l with
  | nil => simp [assocLookup] at h
  | cons p rest ih =>
    obtain ⟨k, w⟩ := p
    rw [assocLookup] at h
    by_cases hk : k = t
    · rw [if_pos hk] at h
      subst hk
      cases h
      exact List.mem_cons_self _ _
    · rw [if_neg hk] at h
      exact List.mem_cons_of_mem _ (ih h)

theorem replaceCh_nil_eq_filter (c : Char) (l : List Char) :
    replaceCh c [] l = l.filter (fun x => x != c) := by
  induction l with
  | nil => rfl
  | cons x xs ih =>
    by_cases hx : x = c
    · simp [replaceCh, hx, ih]
    · simp [replaceCh, hx, ih]

/-! ## The claims -/

/-- C1: on a table with entries named `[a, b, c, d]`, `get_subset` with
`subsetNames = ["b", "d"]` and `remove = true` yields `[a, c, d]`, not the
`[a, c]` the claim states: once the counter of yielded non-matches reaches
`len(subset_names)`, every further entry is yielded even when its name IS in
`subsetNames` (here `d`). -/
theorem c1_code_result :
    ((get_subset [(⟨"a", []⟩ : Entry Unit), ⟨"b", []⟩, ⟨"c", []⟩, ⟨"d", []⟩]
        ["b", "d"] true).map Entry.name = ["a", "c", "d"]) ∧
    (["a", "c", "d"] : List String) ≠ ["a", "c"] := by
  decide

/-- C2: `get_ordered_traits` on
`["trait2", "trait10", "metadata_b", "trait1", "metadata_a"]` with
`metadataLast = true` returns
`["trait1", "trait10", "trait2", "metadata_b", "metadata_a"]`, not the
natural-sort order `["trait1", "trait2", "trait10", "metadata_a", "metadata_b"]`
the claim states: `convert` is applied to single characters, not digit runs,
so `"trait10"` sorts before `"trait2"`, and metadata names are replaced by the
constant key `"~~~metadata"`, so they keep their input order. -/
theorem c2_code_result :
    get_ordered_traits ["trait2", "trait10", "metadata_b", "trait1", "metadata_a"] true
      = some ["trait1", "trait10", "trait2", "metadata_b", "metadata_a"] ∧
    get_ordered_traits ["trait2", "trait10", "metadata_b", "trait1", "metadata_a"] true
      ≠ some ["trait1", "trait2", "trait10", "metadata_a", "metadata_b"] := by
  decide

/-- C3: a data line without a tab is printed as a diagnostic but, the
`except` branch having no `continue`, the stale `name, trait_values` of the
previous line are reused and a duplicate entry IS emitted for the malformed
line, contradicting the claim that no entry is emitted for it. -/
theorem c3_code_result :
    tableIter parseIntFloat ["#name\tT1\n", "a\t1.0\n", "badline\n"]
      = ⟨[⟨"a", [("T1", Value.num (1 : Int))]⟩, ⟨"a", [("T1", Value.num 1)]⟩],
         ["badline\n"], none⟩ := by
  decide

/-- C4: with a duplicated trait name in the header, the duplicate-trait error
raised while building the first row propagates out of the generator: the
whole pass aborts with no entry yielded and the second row is never parsed,
contradicting the claim that the row is skipped and parsing continues. -/
theorem c4_code_result :
    tableIter parseIntFloat ["#name\tT\tT\n", "a\t1.0\t2.0\n", "b\t3.0\t4.0\n"]
      = ⟨[], [], some (PyErr.duplicateTrait "a" "T")⟩ := by
  decide

/-- C6: adding a trait name already present always raises the duplicate-trait
error whatever the new value is, and adding a fresh trait name succeeds and
stores `num f` when the raw value parses as a float (`pf v = some f`) and
`text v` verbatim otherwise. -/
theorem c6_theorem (pf : String → Option F) (e : Entry F) (t v : String) :
    (t ∈ e.traits.map Prod.fst →
      addTraitRun pf e t v = (some (PyErr.duplicateTrait e.name t), e)) ∧
    (t ∉ e.traits.map Prod.fst →
      addTraitRun pf e t v = (none, ⟨e.name, e.traits ++ [(t, pyFloatValue pf v)]⟩)) ∧
    (∀ f, pf v = some f → pyFloatValue pf v = Value.num f) ∧
    (pf v = none → pyFloatValue pf v = Value.text v) := by
  refine ⟨fun h => ?_, fun h => ?_, fun f hf => ?_, fun hn => ?_⟩
  · rw [addTraitRun, if_pos ((contains_iff_mem _ _).mpr h)]
  · rw [addTraitRun, if_neg fun hc => h ((contains_iff_mem _ _).mp hc)]
  · simp [pyFloatValue, hf]
  · simp [pyFloatValue, hn]

/-- C6 witness: concrete duplicate rejection and fresh insertion. -/
theorem c6_witness :
    addTraitRun (fun _ => (none : Option Unit)) ⟨"E", [("a", Value.text "x")]⟩ "a" "y"
      = (some (PyErr.duplicateTrait "E" "a"), ⟨"E", [("a", Value.text "x")]⟩) ∧
    addTraitRun (fun _ => (none : Option Unit)) ⟨"E", [("a", Value.text "x")]⟩ "b" "y"
      = (none, ⟨"E", [("a", Value.text "x"), ("b", Value.text "y")]⟩) :=
  ⟨(c6_theorem _ _ _ _).1 (by decide), (c6_theorem _ _ _ _).2.1 (by decide)⟩

/-- C7: the candidate trait list defaults to this entry's own trait names; a
candidate contributes a pair exactly when both entries have a value for it;
and when no candidate is shared (for example because the trait sets are
disjoint) the call fails with the no-shared-traits error. -/
theorem c7_theorem (e o : Entry F) :
    correlationShared e o none = correlationShared e o (some (e.traits.map Prod.fst)) ∧
    (∀ ts t sv ov, (t, sv, ov) ∈ sharedPairs e o ts ↔
      t ∈ ts ∧ assocLookup t e.traits = some sv ∧ assocLookup t o.traits = some ov) ∧
    ((∀ t ∈ e.traits.map Prod.fst, assocLookup t o.traits = none) →
      correlationShared e o none = Except.error PyErr.noSharedTraits) := by
  refine ⟨rfl, fun ts t sv ov => ?_, fun hd => ?_⟩
  · constructor
    · intro hm
      rw [sharedPairs, List.mem_filterMap] at hm
      obtain ⟨t2, ht2, hf⟩ := hm
      rcases h1 : assocLookup t2 e.traits with _ | sv2 <;> rw [h1] at hf
      · simp at hf
      · rcases h2 : assocLookup t2 o.traits with _ | ov2 <;> rw [h2] at hf
        · simp at hf
        · cases hf
          exact ⟨ht2, h1, h2⟩
    · rintro ⟨ht, h1, h2⟩
      rw [sharedPairs, List.mem_filterMap]
      exact ⟨t, ht, by rw [h1, h2]⟩
  · have hp : sharedPairs e o (e.traits.map Prod.fst) = [] := by
      rw [sharedPairs, List.filterMap_eq_nil_iff]
      intro t ht
      rw [hd t ht]
      cases assocLookup t e.traits <;> rfl
    simp [correlationShared, hp]

/-- C7 witness: two entries with disjoint trait sets fail with the
no-shared-traits error. -/
theorem c7_witness :
    correlationShared (⟨"A", [("x", Value.text "1")]⟩ : Entry Unit)
      ⟨"B", [("y", Value.text "2")]⟩ none = Except.error PyErr.noSharedTraits :=
  (c7_theorem _ _).2.2 (by decide)

/-- C8: on a table with entries named `[a, b, c, d]` (whatever their traits),
`get_subset` with `subsetNames = ["b", "d"]` and `remove = false` yields
exactly `[b, d]` in source order. -/
theorem c8_theorem (F : Type) (ea eb ec ed : Entry F)
    (ha : ea.name = "a") (hb : eb.name = "b") (hc : ec.name = "c")
    (hd : ed.name = "d") :
    get_subset [ea, eb, ec, ed] ["b", "d"] false = [eb, ed] := by
  simp [get_subset, getSubsetGo, ha, hb, hc, hd]

/-- C8 witness: the selection at concrete entries. -/
theorem c8_witness :
    get_subset [(⟨"a", []⟩ : Entry Unit), ⟨"b", []⟩, ⟨"c", []⟩, ⟨"d", []⟩]
      ["b", "d"] false = [⟨"b", []⟩, ⟨"d", []⟩] :=
  c8_theorem Unit _ _ _ _ rfl rfl rfl rfl

/-- C9 counterexample: for the header line `"#a#b\tT1\tT2"` the code computes
`entry_header = "ab"` (`replace("#", "")` removes every `#`), while the claim
predicts `"a#b"` (only a single leading marker removed). -/
theorem c9_counterexample :
    entryHeaderOf "#a#b\tT1\tT2" = "ab" ∧
    specStripLeadingHash "#a#b" = "a#b" ∧ ("ab" : String) ≠ "a#b" := by
  decide

/-- C9 amended: `entryHeaderName` is the first tab-separated field of the
rstripped header line with ALL `#` characters removed, wherever they occur,
and the remaining fields become the trait names in file order. -/
theorem c9_amended_theorem (line : String) :
    entryHeaderOf line
      = String.mk (((headersOf line).headD "").data.filter fun c => c != '#') ∧
    traitsOf line = (headersOf line).tail :=
  ⟨by rw [entryHeaderOf, pyStripHash, replaceCh_nil_eq_filter], rfl⟩

/-- C10: `add_trait` is atomic on failure: whenever it raises, the entry's
trait mapping is exactly what it was before the call. -/
theorem c10_theorem (pf : String → Option F) (e : Entry F) (t v : String)
    (err : PyErr) (h : (addTraitRun pf e t v).1 = some err) :
    (addTraitRun pf e t v).2 = e := by
  rw [addTraitRun] at h ⊢
  by_cases hc : (e.traits.map Prod.fst).contains t = true
  · rw [if_pos hc]
  · rw [if_neg hc] at h
    simp at h

/-- C10 witness: the failing duplicate call leaves the entry unchanged. -/
theorem c10_witness :
    (addTraitRun (fun _ => (none : Option Unit)) ⟨"E", [("a", Value.text "x")]⟩ "a" "y").2
      = ⟨"E", [("a", Value.text "x")]⟩ :=
  c10_theorem _ _ _ _ (PyErr.duplicateTrait "E" "a") (by decide)

/-! ## Lemmas for the round-trip claim -/

theorem splitCh_no_sep (c : Char) (l : List Char) (h : ∀ x ∈ l, x ≠ c) :
    splitCh c l = [l] := by
  induction l with
  | nil => rfl
  | cons x xs ih =>
    rw [splitCh, if_neg (h x (by simp)),
      ih fun y hy => h y (List.mem_cons_of_mem _ hy)]

theorem splitCh_append (c : Char) (a b : List Char) (h : ∀ x ∈ a, x ≠ c) :
    splitCh c (a ++ c :: b) = a :: splitCh c b := by
  induction a with
  | nil => simp [splitCh]
  | cons x xs ih =>
    rw [List.cons_append, splitCh, if_neg (h x (by simp)),
      ih fun y hy => h y (List.mem_cons_of_mem _ hy)]

theorem interCh_cons (c : Char) (a : List Char) (l : List (List Char)) (h : l ≠ []) :
    interCh c (a :: l) = a ++ c :: interCh c l := by
  cases l with
  | nil => exact absurd rfl h
  | cons b rest => rfl

theorem splitCh_interCh (c : Char) (l : List (List Char)) (h : l ≠ [])
    (hall : ∀ s ∈ l, ∀ x ∈ s, x ≠ c) :
    splitCh c (interCh c l) = l := by
  induction l with
  | nil => exact absurd rfl h
  | cons a rest ih =>
    cases rest with
    | nil =>
      simp only [interCh]
      exact splitCh_no_sep c a (hall a (by simp))
    | cons b rest2 =>
      rw [interCh_cons c a _ (by simp), splitCh_append c a _ (hall a (by simp)),
        ih (by simp) fun s hs => hall s (List.mem_cons_of_mem _ hs)]

theorem interCh_concat (c : Char) (l : List (List Char)) (a : List Char) (h : l ≠ []) :
    interCh c (l ++ [a]) = interCh c l ++ c :: a := by
  induction l with
  | nil => exact absurd rfl h
  | cons b rest ih =>
    cases rest with
    | nil => rfl
    | cons d rest2 =>
      rw [List.cons_append, interCh_cons c b ((d :: rest2) ++ [a]) (by simp),
        ih (by simp), interCh_cons c b (d :: rest2) (by simp)]
      simp

theorem rstrip_concat_newline (ys : List Char) (z : Char)
    (hz : pyIsSpace z = false) :
    rstripChars ((ys ++ [z]) ++ ['\n']) = ys ++ [z] := by
  have h1 : ((ys ++ [z]) ++ ['\n']).reverse = '\n' :: z :: ys.reverse := by simp
  rw [rstripChars, h1, List.dropWhile_cons, if_pos (by decide),
    List.dropWhile_cons, if_neg (by simp [hz])]
  simp

theorem goodName_no_tab_nl (s : String) (h : goodName s = true) :
    ∀ x ∈ s.data, x ≠ '\t' ∧ x ≠ '\n' ∧ x ≠ '\r' := by
  intro x hx
  rw [goodName, List.all_eq_true] at h
  have h2 := h x hx
  simp only [Bool.and_eq_true, bne_iff_ne, ne_eq] at h2
  exact ⟨h2.1.1, h2.1.2, h2.2⟩

theorem goodField_parts (s : String) (h : goodField s = true) :
    s.data ≠ [] ∧ goodName s = true ∧
      pyIsSpace (s.data.getLast?.getD ' ') = false := by
  rw [goodField] at h
  simp only [Bool.and_eq_true, Bool.not_eq_true'] at h
  obtain ⟨⟨h1, h2⟩, h3⟩ := h
  exact ⟨by simpa using h1, h2, h3⟩

theorem buildEntryGo_spec (pf : String → Option F) (f : String → String) :
    ∀ (ts pre : List String) (acc : Entry F),
      acc.traits.map Prod.fst = pre →
      (pre ++ ts).Nodup →
      buildEntryGo pf (pre ++ ts) acc pre.length (ts.map f)
        = Except.ok ⟨acc.name, acc.traits ++ ts.map fun t => (t, pyFloatValue pf (f t))⟩ := by
  intro ts
  induction ts with
  | nil =>
    intro pre acc hkeys hnd
    simp [buildEntryGo]
  | cons t ts2 ih =>
    intro pre acc hkeys hnd
    rw [List.map_cons, buildEntryGo]
    have hget : (pre ++ t :: ts2)[pre.length]? = some t := by
      rw [List.getElem?_append_right (le_refl _)]
      simp
    rw [hget]
    have hnotmem : t ∉ pre := by
      rcases List.nodup_append.mp hnd with ⟨-, -, hdisj⟩
      intro hmem
      exact hdisj hmem (by simp)
    simp only [addTraitRun]
    rw [if_neg fun hc => hnotmem (hkeys ▸ (contains_iff_mem _ _).mp hc)]
    have heq : pre ++ t :: ts2 = (pre ++ [t]) ++ ts2 := by simp
    rw [heq, show pre.length + 1 = (pre ++ [t]).length by simp]
    dsimp only
    rw [ih (pre ++ [t]) _ (by simp [hkeys]) (heq ▸ hnd)]
    simp

theorem fieldFor_roundtrip (pf : String → Option F) (rf : F → String) (e : Entry F)
    (hvals : ∀ p ∈ e.traits, valWritable pf rf p.2) (hNA : pf "NA" = none)
    (t : String) :
    pyFloatValue pf (fieldFor rf e t) = readBack e t := by
  rcases h : assocLookup t e.traits with _ | v
  · rw [fieldFor, readBack, h]
    simp [pyFloatValue, hNA]
  · rw [fieldFor, readBack, h]
    have hv := hvals _ (assocLookup_mem h)
    cases v with
    | num f =>
      simp only [valWritable] at hv
      simp [renderValue, pyFloatValue, hv]
    | text s =>
      simp only [valWritable] at hv
      simp [renderValue, pyFloatValue, hv]

/-- C5 (amended): write/re-parse round-trip, guarded by the well-formedness
the counterexample `c5_counterexample` forces.  For a nonempty,
duplicate-free trait order `T`, an entry whose name contains no tab or
newline, whose stored values render to nonempty tab- and newline-free fields
not ending in whitespace, and whose values parse back (`float(str(f)) == f`,
and text was stored precisely because it does not parse as a float), writing
the row and re-parsing it against the same header yields exactly one entry
with the same name, the stored value for every trait present at write time,
and the text `"NA"` for every requested trait absent at write time. -/
theorem c5_theorem (pf : String → Option F) (rf : F → String)
    (T : List String) (e : Entry F)
    (hT : T ≠ []) (hnd : T.Nodup)
    (hname : goodName e.name = true)
    (hvals : ∀ p ∈ e.traits,
      goodField (renderValue rf p.2) = true ∧ valWritable pf rf p.2)
    (hNA : pf "NA" = none) :
    reParseRow pf T (write_entry rf e T)
      = ⟨[⟨e.name, T.map fun t => (t, readBack e t)⟩], [], none⟩ := by
  have hfield : ∀ t ∈ T, goodField (fieldFor rf e t) = true := by
    intro t _
    rcases h : assocLookup t e.traits with _ | v
    · rw [fieldFor, h]
      show goodField "NA" = true
      decide
    · rw [fieldFor, h]
      exact (hvals _ (assocLookup_mem h)).1
  have hallf : ∀ s ∈ (e.name.data :: T.map fun t => (fieldFor rf e t).data),
      ∀ x ∈ s, x ≠ '\t' := by
    intro s hs
    rcases List.mem_cons.mp hs with h | h
    · subst h
      exact fun x hx => (goodName_no_tab_nl _ hname x hx).1
    · obtain ⟨t, ht, rfl⟩ := List.mem_map.mp h
      exact fun x hx =>
        (goodName_no_tab_nl _ (goodField_parts _ (hfield t ht)).2.1 x hx).1
  obtain ⟨T0, tl, rfl⟩ : ∃ T0 tl, T = T0 ++ [tl] := by
    rcases List.eq_nil_or_concat T with h | ⟨T0, tl, h⟩
    · exact absurd h hT
    · exact ⟨T0, tl, by rw [List.concat_eq_append] at h; exact h⟩
  obtain ⟨gs, z, hgz⟩ : ∃ gs z, (fieldFor rf e tl).data = gs ++ [z] := by
    have hne := (goodField_parts _ (hfield tl (by simp))).1
    rcases List.eq_nil_or_concat (fieldFor rf e tl).data with h | ⟨gs, z, h⟩
    · exact absurd h hne
    · exact ⟨gs, z, by rw [List.concat_eq_append] at h; exact h⟩
  have hzws : pyIsSpace z = false := by
    have h3 := (goodField_parts _ (hfield tl (by simp))).2.2
    rw [hgz] at h3
    simpa using h3
  set L := interCh '\t'
    (e.name.data :: (T0 ++ [tl]).map fun t => (fieldFor rf e t).data) with hL
  have hrowdata : (write_entry rf e (T0 ++ [tl])).data = L ++ ['\n'] := rfl
  have hLdec : L = (interCh '\t'
      (e.name.data :: T0.map fun t => (fieldFor rf e t).data) ++ '\t' :: gs) ++ [z] := by
    rw [hL, List.map_append, List.map_singleton,
      show e.name.data :: (T0.map (fun t => (fieldFor rf e t).data)
          ++ [(fieldFor rf e tl).data])
        = (e.name.data :: T0.map fun t => (fieldFor rf e t).data)
          ++ [(fieldFor rf e tl).data] from rfl,
      interCh_concat '\t' _ _ (by simp), hgz]
    simp
  have hrs : rstripChars (L ++ ['\n']) = L := by
    rw [hLdec]
    exact rstrip_concat_newline _ _ hzws
  have hrstrip : pyRstrip (write_entry rf e (T0 ++ [tl])) = String.mk L := by
    rw [pyRstrip, hrowdata, hrs]
  have hsplitL : splitCh '\t' L
      = e.name.data :: (T0 ++ [tl]).map fun t => (fieldFor rf e t).data := by
    rw [hL]
    exact splitCh_interCh '\t' _ (by simp) hallf
  obtain ⟨hd0, tl2, hmap⟩ : ∃ hd0 tl2,
      ((T0 ++ [tl]).map fun t => (fieldFor rf e t).data) = hd0 :: tl2 := by
    cases T0 <;> exact ⟨_, _, rfl⟩
  have honce : pySplitTabOnce (String.mk L)
      = some (e.name, String.mk (interCh '\t'
          ((T0 ++ [tl]).map fun t => (fieldFor rf e t).data))) := by
    rw [pySplitTabOnce, show (String.mk L).data = L from rfl, hsplitL, hmap]
  have htv : pySplitTab (String.mk (interCh '\t'
        ((T0 ++ [tl]).map fun t => (fieldFor rf e t).data)))
      = (T0 ++ [tl]).map (fieldFor rf e) := by
    rw [pySplitTab,
      show (String.mk (interCh '\t'
        ((T0 ++ [tl]).map fun t => (fieldFor rf e t).data))).data
        = interCh '\t' ((T0 ++ [tl]).map fun t => (fieldFor rf e t).data) from rfl,
      splitCh_interCh '\t' _ (by simp)
        (fun s hs => hallf s (List.mem_cons_of_mem _ hs)),
      List.map_map]
    rfl
  have hbuild : buildEntry pf (T0 ++ [tl]) e.name ((T0 ++ [tl]).map (fieldFor rf e))
      = Except.ok ⟨e.name, (T0 ++ [tl]).map fun t => (t, readBack e t)⟩ := by
    rw [buildEntry]
    have h0 := buildEntryGo_spec pf (fieldFor rf e) (T0 ++ [tl]) [] ⟨e.name, []⟩
      rfl (by simpa using hnd)
    simp only [List.nil_append, List.length_nil] at h0
    rw [h0]
    have hmapeq : ((T0 ++ [tl]).map fun t => (t, pyFloatValue pf (fieldFor rf e t)))
        = (T0 ++ [tl]).map fun t => (t, readBack e t) :=
      List.map_congr_left fun t _ => by
        rw [fieldFor_roundtrip pf rf e (fun p hp => (hvals p hp).2) hNA t]
    simp [hmapeq]
  rw [reParseRow, iterLinesGo,
    if_neg (by rw [hrowdata]; simp)]
  simp only [hrstrip, honce, Option.orElse, Option.isNone]
  rw [htv, hbuild]
  simp [iterLinesGo]

/-- C5 counterexample to the claim as stated: an entry whose single trait
value is the empty text, written with its own trait set as the order,
produces the row `"rec\t\n"`; re-parsing it yields NO entry at all (the
`rstrip` eats the tab, the split fails, and there is no previous state), so
the values are not reproduced. -/
theorem c5_counterexample :
    (reParseRow parseIntFloat ["x"]
        (write_entry renderIntFloat
          (⟨"rec", [("x", Value.text "")]⟩ : Entry Int) ["x"])).entries = [] := by
  decide

/-- C5 witness: a concrete entry with a float trait, a text trait and an
absent trait round-trips as the amended claim states. -/
theorem c5_theorem_witness :
    reParseRow parseIntFloat ["x", "y", "z"]
        (write_entry renderIntFloat
          (⟨"rec", [("x", Value.num (1 : Int)), ("y", Value.text "hello")]⟩ : Entry Int)
          ["x", "y", "z"])
      = ⟨[⟨"rec", [("x", Value.num 1), ("y", Value.text "hello"), ("z", Value.text "NA")]⟩],
         [], none⟩ := by
  have h := c5_theorem parseIntFloat renderIntFloat ["x", "y", "z"]
    ⟨"rec", [("x", Value.num (1 : Int)), ("y", Value.text "hello")]⟩
    (by decide) (by decide) (by decide)
    (by
      intro p hp
      simp only [List.mem_cons, List.not_mem_nil, or_false] at hp
      rcases hp with rfl | rfl
      · exact ⟨by decide, show parseIntFloat (renderIntFloat 1) = some 1 from by decide⟩
      · exact ⟨by decide, show parseIntFloat "hello" = none from by decide⟩)
    (by decide)
  exact h

end Picrust
